import Mathlib

/-!
Shallow embedding of the artificial-neuron simulator
(src/app/components/ArtificialNeuron.tsx and the pan/zoom component
variant in src/unnamed/part_000), together with theorems checking the
specification's claims against it.

JavaScript numbers are modelled as real numbers (ℝ) in the numeric
evaluation pipeline; the discrete UI handlers, whose decisions only
compare finitely many literals, are modelled over ℚ so that concrete
runs are decidable.  JavaScript `parseFloat` is a host builtin, not
repository code, so handlers that call it receive its result as an
explicit `Option` parameter (`none` standing for NaN).
-/

namespace ArtificialNeuron

/-- An input row of the neuron: identifier, value and weight
(interface `Input`, ArtificialNeuron.tsx lines 3-7). -/
structure Input where
  id : String
  value : ℝ
  weight : ℝ

/-- The four entries of `aggregationFunctions` (lines 21-54), as a closed kind. -/
inductive AggregationKind
  | Sum
  | Product
  | Maximum
  | Minimum
deriving DecidableEq

/-- Spread form `Math.max(...xs)` on a nonempty list.  On the empty list
JavaScript returns -Infinity, which has no counterpart in ℝ; the model
returns 0 there, and every statement about `Maximum` assumes a nonempty
input collection, which the §3 invariant guarantees at call sites. -/
noncomputable def listMax : List ℝ → ℝ
  | [] => 0
  | x :: xs => xs.foldl max x

/-- Spread form `Math.min(...xs)` on a nonempty list; 0 stands for the
unreachable +Infinity of the empty case, as in `listMax`. -/
noncomputable def listMin : List ℝ → ℝ
  | [] => 0
  | x :: xs => xs.foldl min x

/-- The `fn` fields of `aggregationFunctions` (lines 24, 32, 40, 48):
Sum reduces with `+` from 0, Product with `*` from 1, Maximum and
Minimum take `Math.max`/`Math.min` over the per-input products. -/
noncomputable def aggregationFn : AggregationKind → List Input → ℝ
  | .Sum, inputs => inputs.foldl (fun sum input => sum + input.value * input.weight) 0
  | .Product, inputs => inputs.foldl (fun prod input => prod * (input.value * input.weight)) 1
  | .Maximum, inputs => listMax (inputs.map fun input => input.value * input.weight)
  | .Minimum, inputs => listMin (inputs.map fun input => input.value * input.weight)

/-- The `aggregatedValue` memo (lines 111-115): the selected aggregation
applied to the inputs, then theta added, for every aggregation kind. -/
noncomputable def aggregatedValue (selectedAggregation : AggregationKind)
    (inputs : List Input) (theta : ℝ) : ℝ :=
  aggregationFn selectedAggregation inputs + theta

/-- The five entries of `activationFunctions` (lines 56-85), as a closed kind. -/
inductive ActivationKind
  | Sigmoid
  | Tanh
  | Linear
  | Step
  | Sign
deriving DecidableEq

/-- Step activation (line 77): `x >= 0 ? 1 : 0`. -/
noncomputable def stepBase (x : ℝ) : ℝ :=
  if x ≥ 0 then 1 else 0

/-- Sign activation (line 82): `x > 0 ? 1 : -1`. -/
noncomputable def signBase (x : ℝ) : ℝ :=
  if x > 0 then 1 else -1

/-- The `output` memo (lines 118-132): Linear divides by the slope
(unless the slope is 0) and clamps to [-1, 1]; Sigmoid and Tanh scale
the aggregated value by the gain; Step and Sign fall through to their
base `fn`. -/
noncomputable def output (selectedFunction : ActivationKind)
    (aggregated linearSlope sigmoidGain : ℝ) : ℝ :=
  match selectedFunction with
  | .Linear =>
      let linearOutput := if linearSlope ≠ 0 then aggregated / linearSlope else aggregated
      max (-1) (min 1 linearOutput)
  | .Sigmoid => 1 / (1 + Real.exp (-(sigmoidGain * aggregated)))
  | .Tanh => Real.tanh (sigmoidGain * aggregated)
  | .Step => stepBase aggregated
  | .Sign => signBase aggregated

/-- The initial inputs state (lines 88-91): two inputs with ids "1" and "2",
value 0 and weight 1. -/
noncomputable def initialInputs : List Input :=
  [⟨"1", 0, 1⟩, ⟨"2", 0, 1⟩]

/-- The `addInput` handler (lines 248-251): appends a fresh input whose id is
the string form of the current length plus one. -/
noncomputable def addInput (inputs : List Input) : List Input :=
  inputs ++ [⟨toString (inputs.length + 1), 0, 1⟩]

/-- The `removeInput` handler (lines 253-257): when more than one input
remains, keeps exactly the inputs whose id differs from the argument;
otherwise leaves the collection unchanged. -/
noncomputable def removeInput (inputs : List Input) (id : String) : List Input :=
  if inputs.length > 1 then inputs.filter (fun input => input.id ≠ id) else inputs

/-- A user action on the inputs collection.  `add` models a click on the
"+ Add Input" button, which is disabled while `inputs.length >= 10`
(line 331), so the click can only fire below 10 inputs; `remove id`
models a click on an input row's remove button. -/
inductive InputOp
  | add
  | remove (id : String)

/-- Effect of one user action on the inputs collection. -/
noncomputable def applyOp (inputs : List Input) : InputOp → List Input
  | .add => if inputs.length ≥ 10 then inputs else addInput inputs
  | .remove id => removeInput inputs id

/-- The inputs collection reached from the initial state by a sequence of
user actions. -/
noncomputable def run (ops : List InputOp) : List Input :=
  ops.foldl applyOp initialInputs

/-- The field selector of `updateInput` (line 259): the string literal
union type `'value' | 'weight'`. -/
inductive InputField
  | value
  | weight
deriving DecidableEq

/-- The arrow function inside `updateInput` (lines 260-262): an input whose
id matches gets the named field replaced by the parsed text (empty text and
NaN both resolve to 0, after `value === '' ? 0 : parseFloat(value) || 0`);
any other input passes through untouched.  `parsed` is the parseFloat
oracle for `value` (`none` standing for NaN). -/
noncomputable def updateOne (id : String) (field : InputField) (value : String)
    (parsed : Option ℝ) (input : Input) : Input :=
  if input.id = id then
    match field with
    | .value => { input with value := if value = "" then 0 else parsed.getD 0 }
    | .weight => { input with weight := if value = "" then 0 else parsed.getD 0 }
  else input

/-- The `updateInput` handler (lines 259-263): maps `updateOne` over the
inputs collection. -/
noncomputable def updateInput (inputs : List Input) (id : String) (field : InputField)
    (value : String) (parsed : Option ℝ) : List Input :=
  inputs.map (updateOne id field value parsed)

/-- The pan/zoom state of the graph in the component variant
(src/unnamed/part_000 lines 62-64): pan offsets and zoom factor. -/
structure ViewportState where
  panX : ℚ
  panY : ℚ
  zoom : ℚ
deriving DecidableEq

/-- The `handleResetView` callback (src/unnamed/part_000 lines 121-125):
sets panX and panY to 0 and zoom to 1 regardless of the current state. -/
def handleResetView (_v : ViewportState) : ViewportState :=
  ⟨0, 0, 1⟩

/-- The `handleLinearSlopeChange` handler (lines 270-281): empty text
gives slope 1; parsable text at least 1 is kept; anything else
(NaN or a value below 1) is clamped to the minimum 1.  `parsed` is the
parseFloat oracle for `value` (`none` for NaN). -/
def handleLinearSlopeChange (value : String) (parsed : Option ℚ) : ℚ :=
  if value = "" then 1
  else
    match parsed with
    | some numValue => if numValue ≥ 1 then numValue else 1
    | none => 1

/-- The `handleSigmoidGainChange` handler (lines 283-294): empty text
gives gain 1; parsable text strictly above 1 is kept; anything else
(NaN or a value not above 1) becomes 1.1, the code's "minimum value
slightly greater than 1".  `parsed` is the parseFloat oracle. -/
def handleSigmoidGainChange (value : String) (parsed : Option ℚ) : ℚ :=
  if value = "" then 1
  else
    match parsed with
    | some numValue => if numValue > 1 then numValue else 11 / 10
    | none => 11 / 10

/-! Helper lemmas about the fold forms used by the aggregation functions. -/

lemma foldl_add_eq (f : Input → ℝ) (l : List Input) (a : ℝ) :
    l.foldl (fun s input => s + f input) a = a + (l.map f).sum := by
  induction l generalizing a with
  | nil => simp
  | cons x xs ih => simp [List.foldl_cons, ih, add_assoc]

lemma foldl_mul_eq (f : Input → ℝ) (l : List Input) (a : ℝ) :
    l.foldl (fun p input => p * f input) a = a * (l.map f).prod := by
  induction l generalizing a with
  | nil => simp
  | cons x xs ih => simp [List.foldl_cons, ih, mul_assoc]

lemma foldl_max_mem (x : ℝ) (xs : List ℝ) : xs.foldl max x ∈ x :: xs := by
  induction xs generalizing x with
  | nil => simp
  | cons y ys ih =>
    have h := ih (max x y)
    rw [List.foldl_cons]
    rcases List.mem_cons.1 h with h1 | h1
    · rcases max_choice x y with hc | hc
      · rw [h1, hc]; exact List.mem_cons_self _ _
      · rw [h1, hc]; exact List.mem_cons.2 (Or.inr (List.mem_cons_self _ _))
    · exact List.mem_cons.2 (Or.inr (List.mem_cons.2 (Or.inr h1)))

lemma le_foldl_max (x : ℝ) (xs : List ℝ) : ∀ p ∈ x :: xs, p ≤ xs.foldl max x := by
  induction xs generalizing x with
  | nil =>
    intro p hp
    rw [List.mem_singleton] at hp
    simp [hp]
  | cons y ys ih =>
    intro p hp
    rw [List.foldl_cons]
    rcases List.mem_cons.1 hp with h1 | h1
    · exact h1 ▸ (le_max_left x y).trans (ih (max x y) (max x y) (List.mem_cons_self _ _))
    · rcases List.mem_cons.1 h1 with h2 | h2
      · exact h2 ▸ (le_max_right x y).trans (ih (max x y) (max x y) (List.mem_cons_self _ _))
      · exact ih (max x y) p (List.mem_cons.2 (Or.inr h2))

lemma foldl_min_mem (x : ℝ) (xs : List ℝ) : xs.foldl min x ∈ x :: xs := by
  induction xs generalizing x with
  | nil => simp
  | cons y ys ih =>
    have h := ih (min x y)
    rw [List.foldl_cons]
    rcases List.mem_cons.1 h with h1 | h1
    · rcases min_choice x y with hc | hc
      · rw [h1, hc]; exact List.mem_cons_self _ _
      · rw [h1, hc]; exact List.mem_cons.2 (Or.inr (List.mem_cons_self _ _))
    · exact List.mem_cons.2 (Or.inr (List.mem_cons.2 (Or.inr h1)))

lemma foldl_min_le (x : ℝ) (xs : List ℝ) : ∀ p ∈ x :: xs, xs.foldl min x ≤ p := by
  induction xs generalizing x with
  | nil =>
    intro p hp
    rw [List.mem_singleton] at hp
    simp [hp]
  | cons y ys ih =>
    intro p hp
    rw [List.foldl_cons]
    rcases List.mem_cons.1 hp with h1 | h1
    · exact h1 ▸ (ih (min x y) (min x y) (List.mem_cons_self _ _)).trans (min_le_left x y)
    · rcases List.mem_cons.1 h1 with h2 | h2
      · exact h2 ▸ (ih (min x y) (min x y) (List.mem_cons_self _ _)).trans (min_le_right x y)
      · exact ih (min x y) p (List.mem_cons.2 (Or.inr h2))

lemma tanh_lt_one_aux (y : ℝ) : Real.tanh y < 1 := by
  rw [Real.tanh_eq_sinh_div_cosh, div_lt_one (Real.cosh_pos y)]
  exact Real.sinh_lt_cosh y

lemma neg_one_lt_tanh_aux (y : ℝ) : -1 < Real.tanh y := by
  rw [Real.tanh_eq_sinh_div_cosh, lt_div_iff₀ (Real.cosh_pos y)]
  have h1 := Real.sinh_add_cosh y
  have h2 := Real.exp_pos y
  linarith

/-- C1: for every nonempty input collection, every aggregation kind and every
bias theta, the aggregated value is the aggregation function applied to the
inputs plus theta as a final additive offset: Sum gives the sum of the
per-input products plus theta, Product their product plus theta, and
Maximum/Minimum an extremal element of the per-input products plus theta —
the bias is never folded into the aggregation operator. -/
theorem aggregation_bias_additive (inputs : List Input) (theta : ℝ)
    (h : inputs ≠ []) :
    aggregatedValue .Sum inputs theta
      = (inputs.map fun input => input.value * input.weight).sum + theta ∧
    aggregatedValue .Product inputs theta
      = (inputs.map fun input => input.value * input.weight).prod + theta ∧
    (∃ m ∈ inputs.map fun input => input.value * input.weight,
      (∀ p ∈ inputs.map fun input => input.value * input.weight, p ≤ m) ∧
      aggregatedValue .Maximum inputs theta = m + theta) ∧
    (∃ m ∈ inputs.map fun input => input.value * input.weight,
      (∀ p ∈ inputs.map fun input => input.value * input.weight, m ≤ p) ∧
      aggregatedValue .Minimum inputs theta = m + theta) := by
  obtain ⟨i, rest, rfl⟩ : ∃ i rest, inputs = i :: rest := by
    cases inputs with
    | nil => exact absurd rfl h
    | cons i rest => exact ⟨i, rest, rfl⟩
  refine ⟨?_, ?_, ?_, ?_⟩
  · simp [aggregatedValue, aggregationFn, foldl_add_eq]
  · simp [aggregatedValue, aggregationFn, foldl_mul_eq]
  · refine ⟨(rest.map fun input => input.value * input.weight).foldl max
        (i.value * i.weight), ?_, ?_, ?_⟩
    · simpa using foldl_max_mem (i.value * i.weight)
        (rest.map fun input => input.value * input.weight)
    · intro p hp
      exact le_foldl_max _ _ p (by simpa using hp)
    · simp [aggregatedValue, aggregationFn, listMax]
  · refine ⟨(rest.map fun input => input.value * input.weight).foldl min
        (i.value * i.weight), ?_, ?_, ?_⟩
    · simpa using foldl_min_mem (i.value * i.weight)
        (rest.map fun input => input.value * input.weight)
    · intro p hp
      exact foldl_min_le _ _ p (by simpa using hp)
    · simp [aggregatedValue, aggregationFn, listMin]

/-- Witness for aggregation_bias_additive at a concrete one-element collection. -/
theorem aggregation_bias_additive_witness :
    ([(⟨"1", 2, 3⟩ : Input)] ≠ []) ∧
    aggregatedValue .Sum [⟨"1", 2, 3⟩] 5
      = ([(⟨"1", 2, 3⟩ : Input)].map fun input => input.value * input.weight).sum + 5 :=
  ⟨List.cons_ne_nil _ _, (aggregation_bias_additive [⟨"1", 2, 3⟩] 5 (List.cons_ne_nil _ _)).1⟩

/-- C2: for every aggregated value and all slope/gain parameters, the Sigmoid
output lies in (0,1), Tanh in (-1,1), Step in \x7b0,1\x7d, Sign in \x7b-1,1\x7d,
and Linear in [-1,1]. -/
theorem activation_output_ranges (x linearSlope sigmoidGain : ℝ) :
    (0 < output .Sigmoid x linearSlope sigmoidGain ∧
      output .Sigmoid x linearSlope sigmoidGain < 1) ∧
    (-1 < output .Tanh x linearSlope sigmoidGain ∧
      output .Tanh x linearSlope sigmoidGain < 1) ∧
    (output .Step x linearSlope sigmoidGain = 0 ∨
      output .Step x linearSlope sigmoidGain = 1) ∧
    (output .Sign x linearSlope sigmoidGain = -1 ∨
      output .Sign x linearSlope sigmoidGain = 1) ∧
    (-1 ≤ output .Linear x linearSlope sigmoidGain ∧
      output .Linear x linearSlope sigmoidGain ≤ 1) := by
  have hexp := Real.exp_pos (-(sigmoidGain * x))
  refine ⟨⟨?_, ?_⟩, ⟨?_, ?_⟩, ?_, ?_, ⟨?_, ?_⟩⟩
  · simp only [output]
    positivity
  · simp only [output]
    rw [div_lt_one (by linarith)]
    linarith
  · simp only [output]
    exact neg_one_lt_tanh_aux _
  · simp only [output]
    exact tanh_lt_one_aux _
  · by_cases hx : x ≥ 0
    · exact Or.inr (by simp [output, stepBase, hx])
    · exact Or.inl (by simp [output, stepBase, hx])
  · by_cases hx : x > 0
    · exact Or.inr (by simp [output, signBase, hx])
    · exact Or.inl (by simp [output, signBase, hx])
  · simp only [output]
    exact le_max_left _ _
  · simp only [output]
    exact max_le (by norm_num) (min_le_left _ _)

/-- C3 fails on the code: after removing input "1", `addInput` reuses id "2",
and removing id "2" then deletes both matching rows at once, so the reachable
collection drops to 0 elements, below the claimed lower bound of 1. -/
theorem remove_can_empty_inputs :
    run [.remove "1", .add, .remove "2"] = [] ∧
    (run [.remove "1", .add, .remove "2"]).length = 0 :=
  ⟨rfl, rfl⟩

/-- C4 fails on the code: adding an input right after removing input "1"
computes the new id from the current length and reuses id "2", so the
identifiers in the reachable collection are no longer pairwise distinct. -/
theorem addInput_can_duplicate_ids :
    (run [.remove "1", .add]).map Input.id = ["2", "2"] ∧
    ¬ ((run [.remove "1", .add]).map Input.id).Nodup := by
  have h : (run [.remove "1", .add]).map Input.id = ["2", "2"] := rfl
  refine ⟨h, ?_⟩
  rw [h]
  decide

/-- C5 counterexample: for empty text the sigmoid gain handler stores 1,
which is not above 1, so the stored gain is not clamped into the claimed
domain gain > 1. -/
theorem sigmoid_gain_empty_counterexample :
    handleSigmoidGainChange "" none = 1 ∧ ¬ (1 < handleSigmoidGainChange "" none) :=
  ⟨rfl, by decide⟩

/-- C5 amended: parameter text is handled by clamping, never an error.  The
Linear slope is always at least 1: empty, unparsable or below-1 text is
clamped to the minimum 1 and parsable text at least 1 is kept.  The
Sigmoid/Tanh gain keeps parsable text above 1 and clamps unparsable or
not-above-1 nonempty text to 1.1, but empty text resolves to the default 1,
which lies outside the gain > 1 domain. -/
theorem slope_gain_clamping (value : String) (parsed : Option ℚ) :
    1 ≤ handleLinearSlopeChange value parsed ∧
    (value = "" → handleLinearSlopeChange value parsed = 1) ∧
    (parsed = none → handleLinearSlopeChange value parsed = 1) ∧
    (∀ n, parsed = some n → n < 1 → handleLinearSlopeChange value parsed = 1) ∧
    (∀ n, parsed = some n → 1 ≤ n → value ≠ "" →
      handleLinearSlopeChange value parsed = n) ∧
    (value = "" → handleSigmoidGainChange value parsed = 1) ∧
    (value ≠ "" → parsed = none → handleSigmoidGainChange value parsed = 11 / 10) ∧
    (∀ n, parsed = some n → n ≤ 1 → value ≠ "" →
      handleSigmoidGainChange value parsed = 11 / 10) ∧
    (∀ n, parsed = some n → 1 < n → value ≠ "" →
      handleSigmoidGainChange value parsed = n) ∧
    (value ≠ "" → 1 < handleSigmoidGainChange value parsed) := by
  rcases parsed with _ | n
  · by_cases hv : value = ""
    · simp [handleLinearSlopeChange, handleSigmoidGainChange, hv]
    · refine ⟨?_, ?_, ?_, ?_, ?_, ?_, ?_, ?_, ?_, ?_⟩ <;>
        simp [handleLinearSlopeChange, handleSigmoidGainChange, hv]
      norm_num
  · by_cases hv : value = ""
    · simp [handleLinearSlopeChange, handleSigmoidGainChange, hv]
    · refine ⟨?_, ?_, ?_, ?_, ?_, ?_, ?_, ?_, ?_, ?_⟩
      · show 1 ≤ if value = "" then 1 else if n ≥ 1 then n else 1
        rw [if_neg hv]
        rcases le_or_lt 1 n with h | h
        · rw [if_pos h]
          exact h
        · rw [if_neg (not_le.2 h)]
      · intro h
        exact absurd h hv
      · intro h
        exact Option.noConfusion h
      · intro m hm hlt
        injection hm with e
        subst e
        show (if value = "" then 1 else if n ≥ 1 then n else 1) = 1
        rw [if_neg hv, if_neg (not_le.2 hlt)]
      · intro m hm h1 _
        injection hm with e
        subst e
        show (if value = "" then 1 else if n ≥ 1 then n else 1) = n
        rw [if_neg hv, if_pos h1]
      · intro h
        exact absurd h hv
      · intro _ h
        exact Option.noConfusion h
      · intro m hm hle _
        injection hm with e
        subst e
        show (if value = "" then 1 else if n > 1 then n else 11 / 10) = 11 / 10
        rw [if_neg hv, if_neg (not_lt.2 hle)]
      · intro m hm h1 _
        injection hm with e
        subst e
        show (if value = "" then 1 else if n > 1 then n else 11 / 10) = n
        rw [if_neg hv, if_pos h1]
      · intro _
        show 1 < if value = "" then 1 else if n > 1 then n else 11 / 10
        rw [if_neg hv]
        rcases lt_or_le 1 n with h | h
        · rw [if_pos h]
          exact h
        · rw [if_neg (not_lt.2 h)]
          norm_num

/-- Witness for slope_gain_clamping at concrete strings and parse results. -/
theorem slope_gain_clamping_witness :
    handleLinearSlopeChange "0" (some 0) = 1 ∧
    handleSigmoidGainChange "0" (some 0) = 11 / 10 ∧
    handleSigmoidGainChange "2" (some 2) = 2 ∧
    1 < handleSigmoidGainChange "2" (some 2) :=
  ⟨(slope_gain_clamping "0" (some 0)).2.2.2.1 0 rfl zero_lt_one,
   (slope_gain_clamping "0" (some 0)).2.2.2.2.2.2.2.1 0 rfl zero_le_one (by decide),
   (slope_gain_clamping "2" (some 2)).2.2.2.2.2.2.2.2.1 2 rfl one_lt_two (by decide),
   (slope_gain_clamping "2" (some 2)).2.2.2.2.2.2.2.2.2 (by decide)⟩

/-- C6: with exactly the inputs (value 2, weight 2) and (value 3, weight 3),
Product aggregation and bias 1, the aggregated value is (4 times 9) plus 1,
that is 37; Linear activation with slope 10 produces the raw value 3.7,
which the clamp reduces to the final output 1. -/
theorem product_linear_scenario (gain : ℝ) :
    aggregatedValue .Product [⟨"1", 2, 2⟩, ⟨"2", 3, 3⟩] 1 = 37 ∧
    aggregatedValue .Product [⟨"1", 2, 2⟩, ⟨"2", 3, 3⟩] 1 / 10 = 3.7 ∧
    output .Linear (aggregatedValue .Product [⟨"1", 2, 2⟩, ⟨"2", 3, 3⟩] 1) 10 gain = 1 := by
  have h37 : aggregatedValue .Product [⟨"1", 2, 2⟩, ⟨"2", 3, 3⟩] 1 = 37 := by
    norm_num [aggregatedValue, aggregationFn]
  refine ⟨h37, by rw [h37]; norm_num, ?_⟩
  rw [h37]
  simp only [output]
  rw [if_pos (show (10:ℝ) ≠ 0 by norm_num)]
  rw [min_eq_left (show (1:ℝ) ≤ 37 / 10 by norm_num)]
  exact max_eq_right (by norm_num)

/-- C7: a single input (value 5, weight 1) with bias -5 under Sum aggregation
gives aggregated value 0, and Step maps every argument that is at least 0 —
in particular this 0 — to output 1. -/
theorem step_scenario (linearSlope sigmoidGain : ℝ) :
    aggregatedValue .Sum [⟨"1", 5, 1⟩] (-5) = 0 ∧
    (∀ x : ℝ, 0 ≤ x → output .Step x linearSlope sigmoidGain = 1) ∧
    output .Step (aggregatedValue .Sum [⟨"1", 5, 1⟩] (-5)) linearSlope sigmoidGain = 1 := by
  have h0 : aggregatedValue .Sum [⟨"1", 5, 1⟩] (-5) = 0 := by
    norm_num [aggregatedValue, aggregationFn]
  have hstep : ∀ x : ℝ, 0 ≤ x → output .Step x linearSlope sigmoidGain = 1 := by
    intro x hx
    simp [output, stepBase, hx]
  exact ⟨h0, hstep, by rw [h0]; exact hstep 0 (le_refl 0)⟩

/-- Witness for step_scenario at the concrete aggregated value 0. -/
theorem step_scenario_witness :
    (0:ℝ) ≤ 0 ∧ output .Step 0 1 1 = 1 :=
  ⟨le_refl 0, (step_scenario 1 1).2.1 0 (le_refl 0)⟩

/-- C8: handleResetView is idempotent — applying it twice equals applying it
once — and it unconditionally restores pan (0,0) and zoom 1 from every
viewport state. -/
theorem resetView_idempotent (v : ViewportState) :
    handleResetView (handleResetView v) = handleResetView v ∧
    handleResetView v = ⟨0, 0, 1⟩ :=
  ⟨rfl, rfl⟩

/-- C9: the Sign activation is strict at zero: output 1 for every strictly
positive argument, -1 for every argument at most 0, so Sign at 0 gives -1
while Step at 0 gives 1. -/
theorem sign_strict_at_zero (x linearSlope sigmoidGain : ℝ) :
    (0 < x → output .Sign x linearSlope sigmoidGain = 1) ∧
    (x ≤ 0 → output .Sign x linearSlope sigmoidGain = -1) ∧
    output .Sign 0 linearSlope sigmoidGain = -1 ∧
    output .Step 0 linearSlope sigmoidGain = 1 := by
  refine ⟨?_, ?_, ?_, ?_⟩
  · intro hx
    simp [output, signBase, hx]
  · intro hx
    simp [output, signBase, not_lt.2 hx]
  · simp [output, signBase]
  · simp [output, stepBase]

/-- Witness for sign_strict_at_zero on both sides of zero. -/
theorem sign_strict_at_zero_witness :
    ((0:ℝ) < 1 ∧ output .Sign 1 1 1 = 1) ∧ ((-2:ℝ) ≤ 0 ∧ output .Sign (-2) 1 1 = -1) :=
  ⟨⟨zero_lt_one, (sign_strict_at_zero 1 1 1).1 zero_lt_one⟩,
   ⟨neg_nonpos.2 zero_le_two, (sign_strict_at_zero (-2) 1 1).2.1 (neg_nonpos.2 zero_le_two)⟩⟩

lemma updateOne_id (id : String) (field : InputField) (value : String)
    (parsed : Option ℝ) (input : Input) :
    (updateOne id field value parsed input).id = input.id := by
  unfold updateOne
  by_cases h : input.id = id
  · cases field <;> simp [h]
  · simp [h]

lemma updateOne_weight (id : String) (value : String) (parsed : Option ℝ) (input : Input) :
    (updateOne id .value value parsed input).weight = input.weight := by
  unfold updateOne
  by_cases h : input.id = id <;> simp [h]

lemma updateOne_value (id : String) (value : String) (parsed : Option ℝ) (input : Input) :
    (updateOne id .weight value parsed input).value = input.value := by
  unfold updateOne
  by_cases h : input.id = id <;> simp [h]

lemma updateOne_of_ne (id : String) (field : InputField) (value : String)
    (parsed : Option ℝ) (input : Input) (h : input.id ≠ id) :
    updateOne id field value parsed input = input := by
  unfold updateOne
  rw [if_neg h]

lemma map_id_of_fixed {α : Type} (f : α → α) (l : List α) (h : ∀ a ∈ l, f a = a) :
    l.map f = l := by
  induction l with
  | nil => rfl
  | cons x xs ih =>
    rw [List.map_cons, h x (List.mem_cons_self x xs),
      ih fun a ha => h a (List.mem_cons.2 (Or.inr ha))]

/-- C10: updateInput changes at most the named field of the inputs whose
identifier matches: the collection length is preserved, every identifier is
preserved in order, the field not named is preserved for every input, every
input with a different identifier is completely unchanged, and if no input
carries the identifier the collection is unchanged as a whole. -/
theorem updateInput_frame (inputs : List Input) (id : String) (field : InputField)
    (value : String) (parsed : Option ℝ) :
    (updateInput inputs id field value parsed).length = inputs.length ∧
    (updateInput inputs id field value parsed).map Input.id = inputs.map Input.id ∧
    (field = .value →
      (updateInput inputs id field value parsed).map Input.weight
        = inputs.map Input.weight) ∧
    (field = .weight →
      (updateInput inputs id field value parsed).map Input.value
        = inputs.map Input.value) ∧
    (∀ i, ∀ h : i < inputs.length, (inputs.get ⟨i, h⟩).id ≠ id →
      (updateInput inputs id field value parsed).get? i = some (inputs.get ⟨i, h⟩)) ∧
    ((∀ input ∈ inputs, input.id ≠ id) → updateInput inputs id field value parsed = inputs) := by
  refine ⟨?_, ?_, ?_, ?_, ?_, ?_⟩
  · exact List.length_map inputs _
  · rw [updateInput, List.map_map]
    exact congrFun (congrArg List.map (funext fun input => updateOne_id id field value parsed input)) inputs
  · intro hf
    subst hf
    rw [updateInput, List.map_map]
    exact congrFun (congrArg List.map (funext fun input => updateOne_weight id value parsed input)) inputs
  · intro hf
    subst hf
    rw [updateInput, List.map_map]
    exact congrFun (congrArg List.map (funext fun input => updateOne_value id value parsed input)) inputs
  · intro i h hne
    rw [updateInput, List.get?_map, List.get?_eq_get h, Option.map_some']
    exact congrArg some (updateOne_of_ne id field value parsed _ hne)
  · intro hall
    exact map_id_of_fixed _ inputs fun input hmem =>
      updateOne_of_ne id field value parsed input (hall input hmem)

/-- Witness for updateInput_frame on a concrete two-element collection. -/
theorem updateInput_frame_witness :
    (updateInput [⟨"1", 1, 2⟩, ⟨"2", 3, 4⟩] "2" .value "7" (some 7)).map Input.weight
      = ([⟨"1", 1, 2⟩, ⟨"2", 3, 4⟩] : List Input).map Input.weight ∧
    (updateInput [⟨"1", 1, 2⟩, ⟨"2", 3, 4⟩] "2" .value "7" (some 7)).get? 0
      = some (([⟨"1", 1, 2⟩, ⟨"2", 3, 4⟩] : List Input).get ⟨0, by decide⟩) ∧
    updateInput [⟨"1", 1, 2⟩, ⟨"2", 3, 4⟩] "7" .value "9" (some 9)
      = [⟨"1", 1, 2⟩, ⟨"2", 3, 4⟩] :=
  ⟨(updateInput_frame [⟨"1", 1, 2⟩, ⟨"2", 3, 4⟩] "2" .value "7" (some 7)).2.2.1 rfl,
   (updateInput_frame [⟨"1", 1, 2⟩, ⟨"2", 3, 4⟩] "2" .value "7" (some 7)).2.2.2.2.1
     0 (by decide) (by decide),
   (updateInput_frame [⟨"1", 1, 2⟩, ⟨"2", 3, 4⟩] "7" .value "9" (some 9)).2.2.2.2.2
     (by decide)⟩

end ArtificialNeuron
